import Mathlib

/-!
# StarryPad Simon Says — verification of the leaderboard store and game engine

A shallow embedding of `src/server.py` (leaderboard persistence, the
`game_thread` state machine, and the WebSocket `submit_name` path).
Pure helpers become Lean functions; the stateful game thread becomes a
labelled small-step transition relation on an explicit configuration
type.  Python integers are `Int`/`Nat`; times are integers in
milliseconds; fallible Python code (uncaught exceptions) is modelled
with `Except String`.
-/

namespace StarryPad

/-- JSON values as produced by Python's `json.loads`.  Numbers are
modelled as integers (the leaderboard only ever stores integral
scores); floats are outside the modelled subset. -/
inductive Json where
  | null : Json
  | bool (b : Bool) : Json
  | num (n : Int) : Json
  | str (s : String) : Json
  | arr (elems : List Json) : Json
  | obj (fields : List (String × Json)) : Json
deriving Repr

mutual
def Json.beq : Json → Json → Bool
  | .null, .null => true
  | .bool a, .bool b => a == b
  | .num a, .num b => a == b
  | .str a, .str b => a == b
  | .arr xs, .arr ys => Json.beqList xs ys
  | .obj xs, .obj ys => Json.beqFields xs ys
  | _, _ => false
def Json.beqList : List Json → List Json → Bool
  | [], [] => true
  | x :: xs, y :: ys => Json.beq x y && Json.beqList xs ys
  | _, _ => false
def Json.beqFields : List (String × Json) → List (String × Json) → Bool
  | [], [] => true
  | (k, v) :: xs, (k', v') :: ys => k == k' && Json.beq v v' && Json.beqFields xs ys
  | _, _ => false
end

/-- The state of the persisted leaderboard file, as `load_leaderboard`
can observe it: absent, present but not valid JSON (this includes the
empty file, and also an unreadable file, i.e. `OSError`), or present
and parsing to a JSON value. -/
inductive FileState where
  | missing : FileState
  | unparsable : FileState
  | parsed (j : Json) : FileState
deriving Repr

/-- Python `dict.get` on a dict built by `json.loads`: the last binding
of a repeated key wins. -/
def pyLookup (fields : List (String × Json)) (k : String) : Option Json :=
  fields.foldl (fun acc p => if p.1 = k then some p.2 else acc) none

/-- Sort key of `load_leaderboard`: Python `e.get("score", 0)`.
Raises `AttributeError` when the element is not a dict. -/
def keyGet (e : Json) : Except String Json :=
  match e with
  | .obj fields => .ok ((pyLookup fields "score").getD (.num 0))
  | _ => .error "AttributeError"

/-- Sort key of `add_score`: Python `e["score"]`.  Raises `KeyError`
when the key is absent and `TypeError` when the element is not a dict. -/
def keyIndex (e : Json) : Except String Json :=
  match e with
  | .obj fields =>
    match pyLookup fields "score" with
    | some v => .ok v
    | none => .error "KeyError"
  | _ => .error "TypeError"

/-- The numeric value a JSON sort key contributes to a Python `<`
comparison.  Python treats `bool` as its integer value.  Comparisons
between other key types either raise `TypeError` or (for homogeneous
strings or lists) are outside the modelled subset; see
`pySortedByScoreDesc`. -/
def numKey? (k : Json) : Option Int :=
  match k with
  | .num n => some n
  | .bool b => some (if b then 1 else 0)
  | _ => none

/-- Compute the sort key of every element (Python computes all keys
before any comparison, so a key failure fires even on singleton
lists). -/
def decorate (keyOf : Json → Except String Json) :
    List Json → Except String (List (Json × Json))
  | [] => .ok []
  | e :: es => do
    let k ← keyOf e
    let rest ← decorate keyOf es
    .ok ((e, k) :: rest)

/-- Reduce all keys to integers, failing (Python `TypeError`) when a
key is not numeric.  Only reached for lists of length ≥ 2 (shorter
lists are never compared). -/
def numKeys : List (Json × Json) → Except String (List (Json × Int))
  | [] => .ok []
  | (e, k) :: rest =>
    match numKey? k with
    | some n => (numKeys rest).map (fun l => (e, n) :: l)
    | none => .error "TypeError"

/-- Insert into a descending-sorted keyed list, after every element of
key ≥ the new key: the insertion step of a stable descending sort. -/
def insertDesc (x : Json × Int) : List (Json × Int) → List (Json × Int)
  | [] => [x]
  | y :: ys => if x.2 ≤ y.2 then y :: insertDesc x ys else x :: y :: ys

/-- Stable descending insertion sort on keyed elements. -/
def sortDesc (xs : List (Json × Int)) : List (Json × Int) :=
  xs.foldl (fun acc x => insertDesc x acc) []

/-- Python `sorted(xs, key=keyOf, reverse=True)`: a stable descending
sort (timsort is stable, and `reverse=True` preserves the order of
equal keys).  Keys are computed for every element up front; for lists
of length ≥ 2 the comparisons require numeric keys — Python would also
sort homogeneous non-numeric keys (e.g. all strings), a case no
leaderboard claim relies on and not modelled. -/
def pySortedByScoreDesc (keyOf : Json → Except String Json) (xs : List Json) :
    Except String (List Json) := do
  let dec ← decorate keyOf xs
  if xs.length ≤ 1 then
    .ok xs
  else do
    let keyed ← numKeys dec
    .ok ((sortDesc keyed).map Prod.fst)

/-- `TOP_N` from `server.py`. -/
def TOP_N : Nat := 5

/-- `load_leaderboard` from `server.py`: a missing file, or a file that
fails to parse (`JSONDecodeError`/`OSError` are caught), or a parsed
non-list value, yields `[]`; a parsed list is sorted descending by
`e.get("score", 0)` and truncated to `TOP_N`.  Exceptions raised by
the sort (e.g. `AttributeError` on a non-dict element) are not caught. -/
def load_leaderboard (fs : FileState) : Except String (List Json) :=
  match fs with
  | .missing => .ok []
  | .unparsable => .ok []
  | .parsed j =>
    match j with
    | .arr xs => (pySortedByScoreDesc keyGet xs).map (fun l => l.take TOP_N)
    | _ => .ok []

/-- `is_top_score` from `server.py`: reload the board; with fewer than
`TOP_N` entries any positive score qualifies, otherwise the score must
strictly exceed `board[-1].get("score", 0)`. -/
def is_top_score (fs : FileState) (score : Int) : Except String Bool := do
  let board ← load_leaderboard fs
  if board.length < TOP_N then
    .ok (decide (score > 0))
  else
    match board.getLast? with
    | some e => do
      let k ← keyGet e
      match numKey? k with
      | some n => .ok (decide (score > n))
      | none => .error "TypeError"
    | none => .error "IndexError"

/-- The entry `add_score` appends for a submission. -/
def newEntry (name : String) (score : Int) : Json :=
  .obj [("name", .str name), ("score", .num score)]

/-- `add_score` from `server.py`: reload, append the new entry, sort
descending by `e["score"]` (stable), truncate to `TOP_N`, persist.
The returned list is exactly what `save_leaderboard` writes. -/
def add_score (name : String) (score : Int) (fs : FileState) :
    Except String (List Json) := do
  let board ← load_leaderboard fs
  let board := board ++ [newEntry name score]
  let board ← pySortedByScoreDesc keyIndex board
  .ok (board.take TOP_N)

/-- Python `name.strip()[:20]`: drop leading and trailing whitespace
and cap to 20 characters, modelled over the underlying character
list. -/
def pyStripCap20 (name : String) : String :=
  ⟨((name.data.dropWhile Char.isWhitespace).reverse.dropWhile
      Char.isWhitespace).reverse.take 20⟩

/-- The `submit_name` branch of `websocket_handler`: strip the name,
cap it to 20 characters, and call `add_score` only when the result is
non-empty and the score is a positive integer; otherwise nothing
happens (`none`). -/
def submit_name (fs : FileState) (name : String) (score : Int) :
    Option (Except String (List Json)) :=
  let n := pyStripCap20 name
  if n ≠ "" ∧ score > 0 then some (add_score n score fs) else none

/-! ## The game engine (`game_thread` in `server.py`)

The thread body is a loop whose only interactions with the outside are
the two queues (`ui_to_game` for commands, the MIDI input buffer for
presses), the wall clock, the random pad choice, and the emitted
events.  We model it as a labelled transition relation on an explicit
configuration carrying the thread's local variables, a program
counter for the loop's interior control points, and the two queues.
Environment steps may append to either queue at any control point,
which is exactly the asynchrony of the real system. -/

/-- `NOTE_MIN`/`NOTE_MAX` from `server.py`. -/
def NOTE_MIN : Nat := 31

def NOTE_MAX : Nat := 46

/-- `PLAYABLE_NOTES`: the 16 pad notes 31–46. -/
def PLAYABLE_NOTES : List Nat := List.range' NOTE_MIN 16

/-- `DEBOUNCE_S` (0.35 s), in milliseconds. -/
def DEBOUNCE_MS : Int := 350

/-- `note_to_pad_index` from `server.py`. -/
def note_to_pad_index (note : Nat) : Option Nat :=
  if NOTE_MIN ≤ note ∧ note ≤ NOTE_MAX then some (note - NOTE_MIN) else none

/-- The `phase` variable of `game_thread`. -/
inductive Phase where
  | idle | playing | input | gameover
deriving Repr, DecidableEq

/-- Commands on the `ui_to_game` queue (the `submit_name` command is
handled in the web layer and never reaches this queue). -/
inductive Cmd where
  | start | stop
deriving Repr, DecidableEq

/-- A MIDI message as `game_thread` inspects it: whether it is a
`note_on`, its note, and its velocity. -/
structure MidiMsg where
  noteOn : Bool
  note : Nat
  velocity : Nat
deriving Repr, DecidableEq

/-- Events `emit`ted on the `game_events` queue. -/
inductive Ev where
  | light (pad : Nat)
  | unlight (pad : Nat)
  | phase (p : Phase)
  | score (s : Nat)
  | leaderboard (board : List Json)
  | correct (pad : Nat)
  | wrong (pad : Nat)
  | gameover (score : Nat) (isTop : Bool)
  | error (text : String)

/-- Interior control points of the `game_thread` loop:
`main` is the top of the `while True` body; `playStep k` is the top of
iteration `k` of `start_round`'s playback loop (about to drain
commands and light `sequence[k]`); `playDone` is the drain/check after
that loop; `msgs` is the `for msg in inport.iter_pending()` loop. -/
inductive PC where
  | main
  | playStep (k : Nat)
  | playDone
  | msgs
deriving Repr, DecidableEq

/-- The local state of `game_thread` plus the two inbound queues and
the (engine-read-only) leaderboard file.  `clock` is the last observed
wall-clock time, used to keep the per-step `now` labels monotone. -/
structure Config where
  pc : PC
  phase : Phase
  sequence : List Nat
  score : Nat
  expectedIndex : Nat
  lastNote : Option Nat
  lastNoteTime : Int
  stopRequested : Bool
  midiOk : Bool
  clock : Int
  cmdQ : List Cmd
  midiQ : List MidiMsg
  file : FileState

/-- `drain_commands`: consume the whole queue, keeping only the last
command (each `get_nowait` overwrites `cmd`). -/
def lastCmd (q : List Cmd) : Option Cmd := q.getLast?

/-- `go_idle`'s effect on the local state (it also empties nothing
else; the debounce pair is untouched). -/
def goIdle (c : Config) : Config :=
  { c with phase := .idle, sequence := [], score := 0, stopRequested := false }

/-- The events `go_idle` emits; the leaderboard event re-reads the
file. -/
def goIdleEvs (board : List Json) : List Ev :=
  [.phase .idle, .score 0, .leaderboard board]

/-- The prologue of `start_round`: append a random note, set
`score = len(sequence) - 1`, enter `playing`, reset `expected_index`,
and fall into the playback loop at its first iteration. -/
def roundStart (c : Config) (n : Nat) : Config :=
  { c with
    sequence := c.sequence ++ [n]
    score := (c.sequence ++ [n]).length - 1
    phase := .playing
    expectedIndex := 0
    pc := .playStep 0 }

/-- The events the `start_round` prologue emits (score, then phase). -/
def roundStartEvs (c : Config) (n : Nat) : List Ev :=
  [.score ((c.sequence ++ [n]).length - 1), .phase .playing]

/-- The `light`/`unlight` events of `light_pad`, guarded on the note
mapping to a pad. -/
def lightEvs (note : Nat) : List Ev :=
  match note_to_pad_index note with
  | some idx => [.light idx, .unlight idx]
  | none => []

/-- The `stop` branch at the top of the main loop. -/
def StopCase (cmd : Option Cmd) (ph : Phase) : Prop :=
  cmd = some .stop ∧ ph ≠ .idle

/-- The `start` branch at the top of the main loop. -/
def StartCase (cmd : Option Cmd) (ph : Phase) : Prop :=
  cmd = some .start ∧ (ph = .idle ∨ ph = .gameover)

instance (cmd : Option Cmd) (ph : Phase) : Decidable (StopCase cmd ph) := by
  unfold StopCase; infer_instance

instance (cmd : Option Cmd) (ph : Phase) : Decidable (StartCase cmd ph) := by
  unfold StartCase; infer_instance

/-- Transition labels: an engine step carries the wall-clock time it
observed and the events it emitted; an environment step records the
arriving command or message, the latter together with the engine phase
at the moment it arrived. -/
inductive Lab where
  | eng (now : Int) (evs : List Ev)
  | recvCmd (cmd : Cmd)
  | recvMsg (m : MidiMsg) (ph : Phase)

/-- One step of the system: either the environment delivers a command
or a MIDI press into a queue, or the engine executes the code between
two control points.  Each engine step observes a monotone wall clock
`now`.  Nondeterministic outcomes (the random pad, whether a MIDI
connect attempt succeeds, the contents of the leaderboard file reads)
appear as constructor parameters constrained by hypotheses. -/
inductive Step : Config → Lab → Config → Prop where
  /-- A UI client enqueues a command (any time). -/
  | recvCmd (c : Config) (cmd : Cmd) :
      Step c (.recvCmd cmd) { c with cmdQ := c.cmdQ ++ [cmd] }
  /-- The device delivers a MIDI message into the input buffer (any
  time); the label records the engine phase at arrival. -/
  | recvMsg (c : Config) (m : MidiMsg) :
      Step c (.recvMsg m c.phase) { c with midiQ := c.midiQ ++ [m] }
  /-- Main loop: `cmd == "stop"` with a non-idle phase: `go_idle`. -/
  | mainStop (c : Config) (now : Int) (board : List Json)
      (hpc : c.pc = .main) (hnow : c.clock ≤ now)
      (hcmd : lastCmd c.cmdQ = some .stop) (hph : c.phase ≠ .idle)
      (hload : load_leaderboard c.file = .ok board) :
      Step c (.eng now (goIdleEvs board))
        { goIdle c with cmdQ := [], clock := now, pc := .main }
  /-- Main loop: `cmd == "start"` from idle/gameover, but no device is
  found (`try_connect_midi` fails): emit an error and `go_idle`. -/
  | mainStartNoMidi (c : Config) (now : Int) (board : List Json)
      (hpc : c.pc = .main) (hnow : c.clock ≤ now)
      (hno : ¬ StopCase (lastCmd c.cmdQ) c.phase)
      (hcmd : StartCase (lastCmd c.cmdQ) c.phase)
      (hmidi : c.midiOk = false)
      (hload : load_leaderboard c.file = .ok board) :
      Step c (.eng now (.error "No StarryPad found. Connect it and try again." :: goIdleEvs board))
        { goIdle c with cmdQ := [], clock := now, pc := .main }
  /-- Main loop: `cmd == "start"` from idle/gameover with the device
  available (already connected, or the connect attempt succeeds):
  reset the session and run the `start_round` prologue, entering the
  playback loop. -/
  | mainStart (c : Config) (now : Int) (n : Nat)
      (hpc : c.pc = .main) (hnow : c.clock ≤ now)
      (hno : ¬ StopCase (lastCmd c.cmdQ) c.phase)
      (hcmd : StartCase (lastCmd c.cmdQ) c.phase)
      (hn : n ∈ PLAYABLE_NOTES) :
      Step c (.eng now (roundStartEvs { c with sequence := [] } n))
        (roundStart
          { c with cmdQ := [], midiOk := true, stopRequested := false,
                   sequence := [], score := 0, clock := now } n)
  /-- Main loop fall-through with phase idle/gameover: sleep and poll
  again. -/
  | mainSleep (c : Config) (now : Int)
      (hpc : c.pc = .main) (hnow : c.clock ≤ now)
      (hno : ¬ StopCase (lastCmd c.cmdQ) c.phase)
      (hns : ¬ StartCase (lastCmd c.cmdQ) c.phase)
      (hph : c.phase = .idle ∨ c.phase = .gameover) :
      Step c (.eng now []) { c with cmdQ := [], clock := now, pc := .main }
  /-- Main loop fall-through with no open input port: sleep and poll
  again. -/
  | mainNoInport (c : Config) (now : Int)
      (hpc : c.pc = .main) (hnow : c.clock ≤ now)
      (hno : ¬ StopCase (lastCmd c.cmdQ) c.phase)
      (hns : ¬ StartCase (lastCmd c.cmdQ) c.phase)
      (hph : ¬ (c.phase = .idle ∨ c.phase = .gameover))
      (hmidi : c.midiOk = false) :
      Step c (.eng now []) { c with cmdQ := [], clock := now, pc := .main }
  /-- Main loop fall-through into the pending-message loop. -/
  | mainToMsgs (c : Config) (now : Int)
      (hpc : c.pc = .main) (hnow : c.clock ≤ now)
      (hno : ¬ StopCase (lastCmd c.cmdQ) c.phase)
      (hns : ¬ StartCase (lastCmd c.cmdQ) c.phase)
      (hph : ¬ (c.phase = .idle ∨ c.phase = .gameover))
      (hmidi : c.midiOk = true) :
      Step c (.eng now []) { c with cmdQ := [], clock := now, pc := .msgs }
  /-- Playback loop, iteration `k`: the drained command is `stop`:
  set `stop_requested`, `go_idle`, and return (the caller then
  re-enters the main loop). -/
  | playStop (c : Config) (now : Int) (k : Nat) (board : List Json)
      (hpc : c.pc = .playStep k) (hnow : c.clock ≤ now)
      (hcmd : lastCmd c.cmdQ = some .stop)
      (hload : load_leaderboard c.file = .ok board) :
      Step c (.eng now (goIdleEvs board))
        { goIdle c with cmdQ := [], clock := now, pc := .main }
  /-- Playback loop, iteration `k`: no stop pending: light
  `sequence[k]` and advance to the next iteration (or to the
  after-loop check). -/
  | playLight (c : Config) (now : Int) (k : Nat) (note : Nat)
      (hpc : c.pc = .playStep k) (hnow : c.clock ≤ now)
      (hcmd : lastCmd c.cmdQ ≠ some .stop)
      (hnote : c.sequence[k]? = some note) :
      Step c (.eng now (lightEvs note))
        { c with cmdQ := [], clock := now,
                 pc := if k + 1 < c.sequence.length then .playStep (k + 1) else .playDone }
  /-- After the playback loop: the drained command is `stop`:
  `go_idle` and return to the main loop. -/
  | playDoneStop (c : Config) (now : Int) (board : List Json)
      (hpc : c.pc = .playDone) (hnow : c.clock ≤ now)
      (hcmd : lastCmd c.cmdQ = some .stop)
      (hload : load_leaderboard c.file = .ok board) :
      Step c (.eng now (goIdleEvs board))
        { goIdle c with cmdQ := [], clock := now, pc := .main }
  /-- After the playback loop: no stop pending: enter the input phase
  and return; the caller falls through into the pending-message loop. -/
  | playDoneInput (c : Config) (now : Int)
      (hpc : c.pc = .playDone) (hnow : c.clock ≤ now)
      (hcmd : lastCmd c.cmdQ ≠ some .stop) :
      Step c (.eng now [.phase .input])
        { c with cmdQ := [], clock := now, phase := .input,
                 expectedIndex := 0, pc := .msgs }
  /-- Message loop: no pending message: sleep at the bottom of the
  `while` body and return to its top. -/
  | msgsEmpty (c : Config) (now : Int)
      (hpc : c.pc = .msgs) (hnow : c.clock ≤ now)
      (hq : c.midiQ = []) :
      Step c (.eng now []) { c with clock := now, pc := .main }
  /-- Message loop: the next message is not a `note_on`, has zero
  velocity, or carries an unmapped note: discarded. -/
  | msgsFilter (c : Config) (now : Int) (m : MidiMsg) (rest : List MidiMsg)
      (hpc : c.pc = .msgs) (hnow : c.clock ≤ now)
      (hq : c.midiQ = m :: rest)
      (hf : m.noteOn = false ∨ m.velocity = 0 ∨ note_to_pad_index m.note = none) :
      Step c (.eng now []) { c with midiQ := rest, clock := now }
  /-- Message loop: a valid press while the phase is not `input`:
  discarded. -/
  | msgsNotInput (c : Config) (now : Int) (m : MidiMsg) (rest : List MidiMsg) (idx : Nat)
      (hpc : c.pc = .msgs) (hnow : c.clock ≤ now)
      (hq : c.midiQ = m :: rest)
      (hon : m.noteOn = true) (hv : m.velocity ≠ 0)
      (hidx : note_to_pad_index m.note = some idx)
      (hph : c.phase ≠ .input) :
      Step c (.eng now []) { c with midiQ := rest, clock := now }
  /-- Message loop: a valid press during `input` that repeats the last
  recorded note within the debounce window: dropped entirely, without
  recording it. -/
  | msgsDebounce (c : Config) (now : Int) (m : MidiMsg) (rest : List MidiMsg) (idx : Nat)
      (hpc : c.pc = .msgs) (hnow : c.clock ≤ now)
      (hq : c.midiQ = m :: rest)
      (hon : m.noteOn = true) (hv : m.velocity ≠ 0)
      (hidx : note_to_pad_index m.note = some idx)
      (hph : c.phase = .input)
      (hlast : c.lastNote = some m.note)
      (hwin : now - c.lastNoteTime < DEBOUNCE_MS) :
      Step c (.eng now []) { c with midiQ := rest, clock := now }
  /-- Message loop: an accepted press during `input` that does not
  match `sequence[expected_index]`: record it, emit `wrong`, and run
  `game_over` (freeze the score, consult the leaderboard, emit the
  phase change and the round-over event). -/
  | msgsWrong (c : Config) (now : Int) (m : MidiMsg) (rest : List MidiMsg)
      (idx : Nat) (exp : Nat) (isTop : Bool)
      (hpc : c.pc = .msgs) (hnow : c.clock ≤ now)
      (hq : c.midiQ = m :: rest)
      (hon : m.noteOn = true) (hv : m.velocity ≠ 0)
      (hidx : note_to_pad_index m.note = some idx)
      (hph : c.phase = .input)
      (hdeb : ¬ (c.lastNote = some m.note ∧ now - c.lastNoteTime < DEBOUNCE_MS))
      (hexp : c.sequence[c.expectedIndex]? = some exp)
      (hne : m.note ≠ exp)
      (htop : is_top_score c.file (c.score : Int) = .ok isTop) :
      Step c (.eng now [.wrong idx, .phase .gameover, .gameover c.score isTop])
        { c with midiQ := rest, clock := now,
                 lastNote := some m.note, lastNoteTime := now,
                 phase := .gameover }
  /-- Message loop: an accepted press during `input` matching the
  expected pad, with more of the sequence left: emit `correct` and
  advance the cursor. -/
  | msgsCorrectMid (c : Config) (now : Int) (m : MidiMsg) (rest : List MidiMsg) (idx : Nat)
      (hpc : c.pc = .msgs) (hnow : c.clock ≤ now)
      (hq : c.midiQ = m :: rest)
      (hon : m.noteOn = true) (hv : m.velocity ≠ 0)
      (hidx : note_to_pad_index m.note = some idx)
      (hph : c.phase = .input)
      (hdeb : ¬ (c.lastNote = some m.note ∧ now - c.lastNoteTime < DEBOUNCE_MS))
      (hexp : c.sequence[c.expectedIndex]? = some m.note)
      (hmore : c.expectedIndex + 1 < c.sequence.length) :
      Step c (.eng now [.correct idx])
        { c with midiQ := rest, clock := now,
                 lastNote := some m.note, lastNoteTime := now,
                 expectedIndex := c.expectedIndex + 1 }
  /-- Message loop: an accepted press completing the sequence: emit
  `correct`, pause, and run the `start_round` prologue of the next
  round, entering its playback loop. -/
  | msgsCorrectDone (c : Config) (now : Int) (m : MidiMsg) (rest : List MidiMsg)
      (idx : Nat) (n : Nat)
      (hpc : c.pc = .msgs) (hnow : c.clock ≤ now)
      (hq : c.midiQ = m :: rest)
      (hon : m.noteOn = true) (hv : m.velocity ≠ 0)
      (hidx : note_to_pad_index m.note = some idx)
      (hph : c.phase = .input)
      (hdeb : ¬ (c.lastNote = some m.note ∧ now - c.lastNoteTime < DEBOUNCE_MS))
      (hexp : c.sequence[c.expectedIndex]? = some m.note)
      (hdone : ¬ c.expectedIndex + 1 < c.sequence.length)
      (hn : n ∈ PLAYABLE_NOTES) :
      Step c (.eng now (.correct idx :: roundStartEvs c n))
        (roundStart
          { c with midiQ := rest, clock := now,
                   lastNote := some m.note, lastNoteTime := now,
                   expectedIndex := c.expectedIndex + 1 } n)

/-- The configuration right after `game_thread`'s startup
(`try_connect_midi`, whose outcome is `midiOk0`, then `go_idle`). -/
def initConfig (file : FileState) (midiOk0 : Bool) : Config :=
  { pc := .main, phase := .idle, sequence := [], score := 0,
    expectedIndex := 0, lastNote := none, lastNoteTime := 0,
    stopRequested := false, midiOk := midiOk0, clock := 0,
    cmdQ := [], midiQ := [], file := file }

/-- Reachable configurations of the engine.  The startup `go_idle`
must succeed in reading the leaderboard (otherwise the thread dies
before entering its loop). -/
inductive Reach : Config → Prop where
  | init (file : FileState) (midiOk0 : Bool) (board : List Json)
      (hload : load_leaderboard file = .ok board) :
      Reach (initConfig file midiOk0)
  | step {c : Config} {l : Lab} {c' : Config} :
      Reach c → Step c l c' → Reach c'

/-- A finite execution with its list of labels. -/
inductive Exec : Config → List Lab → Config → Prop where
  | refl (c : Config) : Exec c [] c
  | step {c c' c'' : Config} {l : Lab} {ls : List Lab} :
      Step c l c' → Exec c' ls c'' → Exec c (l :: ls) c''

/-! ## Derived notions used by the theorem statements -/

/-- The value `e.get("score", 0)` contributes as an integer sort key,
read totally: `0` for a missing key or an element whose key would not
be numeric.  Used in specifications; the executable functions above
raise instead where Python raises. -/
def getScoreD (e : Json) : Int :=
  match e with
  | .obj fields =>
    match pyLookup fields "score" with
    | some v => (numKey? v).getD 0
    | none => 0
  | _ => 0

/-- The JSON value `e.get("score", 0)` evaluates to, read totally. -/
def keyGetD (e : Json) : Json :=
  match e with
  | .obj fields => (pyLookup fields "score").getD (.num 0)
  | _ => .num 0

/-- A keyed list is sorted by descending key. -/
def SortedDesc (l : List (Json × Int)) : Prop :=
  l.Pairwise (fun a b => b.2 ≤ a.2)

/-- A board is sorted by descending score. -/
def ScoresDesc (board : List Json) : Prop :=
  board.Pairwise (fun a b => getScoreD b ≤ getScoreD a)

/-- An element `load_leaderboard` fully tolerates: a JSON object whose
`"score"` is an integer or absent. -/
def GoodElem (e : Json) : Prop :=
  ∃ fields, e = .obj fields ∧
    (pyLookup fields "score" = none ∨ ∃ n : Int, pyLookup fields "score" = some (.num n))

/-- File contents for which the persisted-state tolerance of
`load_leaderboard` actually holds: anything at all, except a parsed
JSON list containing an element that is not a well-scored object. -/
def GoodFile (fs : FileState) : Prop :=
  match fs with
  | .parsed (.arr xs) => ∀ e ∈ xs, GoodElem e
  | _ => True

/-- A leaderboard entry as the spec's data model describes it: an
object with an integer `"score"` field. -/
def WFEntry (e : Json) : Prop :=
  ∃ fields n, e = .obj fields ∧ pyLookup fields "score" = some (.num n)

/-- An entry of a successfully loaded board whose `get`-style key is
numeric. -/
def GoodKey (e : Json) : Prop :=
  ∃ k, keyGet e = .ok k ∧ numKey? k = some (getScoreD e)

/-- Claim C3 as stated: `load()` never raises and always yields at
most `TOP_N` entries sorted descending, for **every** persisted file
state. -/
def LoadNeverRaises : Prop :=
  ∀ fs : FileState, ∃ board, load_leaderboard fs = .ok board ∧
    board.length ≤ TOP_N ∧ ScoresDesc board

/-- Claim C2 as stated: in any execution of the engine in which every
device press arrives while the phase is `playing`, no press is ever
accepted or rejected as player input — no `correct`/`wrong` event is
ever emitted, not even after the phase later changes to `input`. -/
def NoStalePressAcceptance : Prop :=
  ∀ (file : FileState) (midiOk0 : Bool) (labs : List Lab) (c' : Config),
    Exec (initConfig file midiOk0) labs c' →
    (∀ m ph, Lab.recvMsg m ph ∈ labs → ph = Phase.playing) →
    ∀ now evs, Lab.eng now evs ∈ labs →
      ∀ i, Ev.correct i ∉ evs ∧ Ev.wrong i ∉ evs

/-! ## Concrete scenario data -/

/-- Scenario B's full board: scores 10, 8, 6, 4, 2. -/
def scenarioB : List Json :=
  [newEntry "A" 10, newEntry "B" 8, newEntry "C" 6, newEntry "D" 4, newEntry "E" 2]

/-- Scenario B's board as the persisted file. -/
def scenarioBFile : FileState := .parsed (.arr scenarioB)

/-- What the board actually becomes when score 3 is submitted to the
full Scenario B board. -/
def scenarioBAfter : List Json :=
  [newEntry "A" 10, newEntry "B" 8, newEntry "C" 6, newEntry "D" 4, newEntry "F" 3]

/-- The stale press of the C2 trace: pad 0 (note 31), delivered while
the engine is playing the sequence back. -/
def mA : MidiMsg := ⟨true, 31, 100⟩

/-- C2 trace, step 0: the engine as it starts up (device present,
empty leaderboard file). -/
def cA0 : Config := initConfig .missing true

/-- C2 trace: a `start` command has been enqueued. -/
def cA1 : Config := { cA0 with cmdQ := [.start] }

/-- C2 trace: the engine consumed `start` and is about to play back
the one-element sequence `[31]` (phase `playing`). -/
def cA2 : Config :=
  { pc := .playStep 0, phase := .playing, sequence := [31], score := 0,
    expectedIndex := 0, lastNote := none, lastNoteTime := 0,
    stopRequested := false, midiOk := true, clock := 0,
    cmdQ := [], midiQ := [], file := .missing }

/-- C2 trace: the press `mA` arrived while the phase was `playing`. -/
def cA3 : Config := { cA2 with midiQ := [mA] }

/-- C2 trace: pad 31 has been lit; playback is done. -/
def cA4 : Config := { cA3 with pc := .playDone }

/-- C2 trace: the engine entered the `input` phase with the stale
press still buffered. -/
def cA5 : Config := { cA4 with phase := .input, expectedIndex := 0, pc := .msgs }

/-- C2 trace: the stale press was accepted as a correct answer and the
next round has begun. -/
def cA6 : Config :=
  { pc := .playStep 0, phase := .playing, sequence := [31, 31], score := 1,
    expectedIndex := 0, lastNote := some 31, lastNoteTime := 0,
    stopRequested := false, midiOk := true, clock := 0,
    cmdQ := [], midiQ := [], file := .missing }

/-- The labels of the C2 trace. -/
def labsA : List Lab :=
  [.recvCmd .start,
   .eng 0 [.score 0, .phase .playing],
   .recvMsg mA .playing,
   .eng 0 [.light 0, .unlight 0],
   .eng 0 [.phase .input],
   .eng 0 [.correct 0, .score 1, .phase .playing]]

/-- A configuration awaiting input with a same-pad chatter press
buffered (C5 witness). -/
def cD : Config :=
  { pc := .msgs, phase := .input, sequence := [31], score := 0,
    expectedIndex := 0, lastNote := some 31, lastNoteTime := 0,
    stopRequested := false, midiOk := true, clock := 0,
    cmdQ := [], midiQ := [⟨true, 31, 100⟩], file := .missing }

/-- Scenario D's configuration: `input`, sequence `[pad3, pad7]` =
notes `[34, 38]`, cursor at 0, a press of pad 7 buffered (C8
witness). -/
def cW : Config :=
  { pc := .msgs, phase := .input, sequence := [34, 38], score := 1,
    expectedIndex := 0, lastNote := none, lastNoteTime := 0,
    stopRequested := false, midiOk := true, clock := 0,
    cmdQ := [], midiQ := [⟨true, 38, 100⟩], file := .missing }

/-- Scenario E's configuration: 1 of 3 pads lit, a `stop` pending (C9
witness). -/
def cS : Config :=
  { pc := .playStep 1, phase := .playing, sequence := [31, 32, 33], score := 2,
    expectedIndex := 0, lastNote := none, lastNoteTime := 0,
    stopRequested := false, midiOk := true, clock := 0,
    cmdQ := [.stop], midiQ := [], file := .missing }

/-- A configuration in phase `playing` at the message loop with a
buffered valid press (C2-amended witness). -/
def cN : Config :=
  { pc := .msgs, phase := .playing, sequence := [31], score := 0,
    expectedIndex := 0, lastNote := none, lastNoteTime := 0,
    stopRequested := false, midiOk := true, clock := 0,
    cmdQ := [], midiQ := [⟨true, 31, 100⟩], file := .missing }

/-! ## Properties of the stable descending sort -/

theorem insertDesc_eq_takeWhile (x : Json × Int) (l : List (Json × Int)) :
    insertDesc x l =
      l.takeWhile (fun y => decide (x.2 ≤ y.2)) ++
        x :: l.dropWhile (fun y => decide (x.2 ≤ y.2)) := by
  induction l with
  | nil => rfl
  | cons y ys ih =>
    by_cases h : x.2 ≤ y.2 <;>
      simp [insertDesc, List.takeWhile_cons, List.dropWhile_cons, h, ih]

theorem insertDesc_perm (x : Json × Int) (l : List (Json × Int)) :
    (insertDesc x l).Perm (x :: l) := by
  induction l with
  | nil => simp [insertDesc]
  | cons y ys ih =>
    unfold insertDesc
    split
    · exact (ih.cons y).trans (List.Perm.swap x y ys)
    · exact List.Perm.refl _

theorem insertDesc_length (x : Json × Int) (l : List (Json × Int)) :
    (insertDesc x l).length = l.length + 1 :=
  (insertDesc_perm x l).length_eq

theorem insertDesc_sorted {l : List (Json × Int)} (x : Json × Int)
    (h : SortedDesc l) : SortedDesc (insertDesc x l) := by
  induction l with
  | nil => simp [insertDesc, SortedDesc]
  | cons y ys ih =>
    rcases (List.pairwise_cons.mp h) with ⟨hy, hys⟩
    unfold insertDesc
    split
    · refine List.pairwise_cons.mpr ⟨?_, ih hys⟩
      intro z hz
      rcases List.mem_cons.mp ((insertDesc_perm x ys).mem_iff.mp hz) with rfl | hzys
      · assumption
      · exact hy z hzys
    · refine List.pairwise_cons.mpr ⟨?_, h⟩
      intro z hz
      rcases List.mem_cons.mp hz with rfl | hzys
      · omega
      · have := hy z hzys; omega

theorem insertDesc_of_forall_le {l : List (Json × Int)} (x : Json × Int)
    (h : ∀ y ∈ l, x.2 ≤ y.2) : insertDesc x l = l ++ [x] := by
  induction l with
  | nil => rfl
  | cons y ys ih =>
    have hy := h y (List.mem_cons_self y ys)
    simp [insertDesc, hy, ih fun z hz => h z (List.mem_cons_of_mem y hz)]

theorem sortDesc_sorted (l : List (Json × Int)) : SortedDesc (sortDesc l) := by
  suffices h : ∀ acc, SortedDesc acc →
      SortedDesc (l.foldl (fun acc x => insertDesc x acc) acc) by
    exact h [] (List.Pairwise.nil)
  induction l with
  | nil => intro acc hacc; exact hacc
  | cons x xs ih => intro acc hacc; exact ih _ (insertDesc_sorted x hacc)

theorem sortDesc_perm (l : List (Json × Int)) : (sortDesc l).Perm l := by
  suffices h : ∀ acc, (l.foldl (fun acc x => insertDesc x acc) acc).Perm (acc ++ l) by
    exact h []
  induction l with
  | nil => intro acc; simp
  | cons x xs ih =>
    intro acc
    refine (ih (insertDesc x acc)).trans ?_
    refine List.Perm.trans (List.Perm.append_right xs (insertDesc_perm x acc)) ?_
    exact (@List.perm_middle _ x acc xs).symm

theorem sortDesc_of_sorted {l : List (Json × Int)} (h : SortedDesc l) :
    sortDesc l = l := by
  suffices hgen : ∀ (l acc : List (Json × Int)), SortedDesc (acc ++ l) →
      l.foldl (fun acc x => insertDesc x acc) acc = acc ++ l by
    exact hgen l [] h
  intro l
  induction l with
  | nil => intro acc _; simp
  | cons x xs ih =>
    intro acc hacc
    have hx : ∀ y ∈ acc, x.2 ≤ y.2 := by
      intro y hy
      have := (List.pairwise_append.mp hacc).2.2 y hy x (List.mem_cons_self x xs)
      exact this
    have h1 : insertDesc x acc = acc ++ [x] := insertDesc_of_forall_le x hx
    have h2 : SortedDesc ((acc ++ [x]) ++ xs) := by
      simpa using hacc
    simp only [List.foldl_cons, h1, ih (acc ++ [x]) h2]
    simp

theorem sortDesc_append_singleton (l : List (Json × Int)) (x : Json × Int) :
    sortDesc (l ++ [x]) = insertDesc x (sortDesc l) := by
  simp [sortDesc, List.foldl_append]

/-! ## Properties of key extraction and of `load_leaderboard` -/

theorem decorate_eq_map {keyOf : Json → Except String Json} {f : Json → Json}
    {xs : List Json} (h : ∀ e ∈ xs, keyOf e = .ok (f e)) :
    decorate keyOf xs = .ok (xs.map fun e => (e, f e)) := by
  induction xs with
  | nil => rfl
  | cons e es ih =>
    have he := h e (List.mem_cons_self e es)
    have hes := ih fun z hz => h z (List.mem_cons_of_mem e hz)
    simp [decorate, he, hes, Bind.bind, Except.bind]

theorem decorate_ok_mem {keyOf : Json → Except String Json}
    {xs : List Json} {dec : List (Json × Json)}
    (h : decorate keyOf xs = .ok dec) :
    dec.map Prod.fst = xs ∧ ∀ p ∈ dec, keyOf p.1 = .ok p.2 := by
  induction xs generalizing dec with
  | nil =>
    simp only [decorate] at h
    cases h
    simp
  | cons e es ih =>
    cases hk : keyOf e with
    | error s => simp [decorate, hk, Bind.bind, Except.bind] at h
    | ok k =>
      cases hr : decorate keyOf es with
      | error s => simp [decorate, hk, hr, Bind.bind, Except.bind] at h
      | ok rest =>
        simp only [decorate, hk, hr, Bind.bind, Except.bind, Except.ok.injEq] at h
        obtain ⟨h1, h2⟩ := ih hr
        subst h
        refine ⟨by simp [h1], ?_⟩
        intro p hp
        rcases List.mem_cons.mp hp with rfl | hp'
        · exact hk
        · exact h2 p hp'

theorem numKeys_eq_map (g : Json × Json → Int) {dec : List (Json × Json)}
    (h : ∀ p ∈ dec, numKey? p.2 = some (g p)) :
    numKeys dec = .ok (dec.map fun p => (p.1, g p)) := by
  induction dec with
  | nil => rfl
  | cons p rest ih =>
    have hp := h p (List.mem_cons_self p rest)
    have hrest := ih fun z hz => h z (List.mem_cons_of_mem p hz)
    cases p with
    | mk e k => simp_all [numKeys, Except.map]

theorem numKeys_ok_mem {dec : List (Json × Json)} {keyed : List (Json × Int)}
    (h : numKeys dec = .ok keyed) :
    keyed.map Prod.fst = dec.map Prod.fst ∧
      ∀ q ∈ keyed, ∃ k, (q.1, k) ∈ dec ∧ numKey? k = some q.2 := by
  induction dec generalizing keyed with
  | nil =>
    simp only [numKeys] at h
    cases h
    simp
  | cons p rest ih =>
    obtain ⟨e, k⟩ := p
    cases hn : numKey? k with
    | none => simp [numKeys, hn] at h
    | some n =>
      cases hr : numKeys rest with
      | error s => simp [numKeys, hn, hr, Except.map] at h
      | ok krest =>
        simp only [numKeys, hn, hr, Except.map, Except.ok.injEq] at h
        obtain ⟨h1, h2⟩ := ih hr
        subst h
        refine ⟨by simp [h1], ?_⟩
        intro q hq
        rcases List.mem_cons.mp hq with rfl | hq'
        · exact ⟨k, List.mem_cons_self _ _, hn⟩
        · obtain ⟨k', hk', hnk'⟩ := h2 q hq'
          exact ⟨k', List.mem_cons_of_mem _ hk', hnk'⟩

theorem keyGet_ok_obj {e : Json} {k : Json} (h : keyGet e = .ok k) :
    (∃ fields, e = .obj fields) ∧ k = keyGetD e := by
  cases e <;> simp_all [keyGet, keyGetD]

theorem getScoreD_of_key {e k : Json} {n : Int}
    (hk : keyGet e = .ok k) (hn : numKey? k = some n) :
    n = getScoreD e ∧ GoodKey e := by
  obtain ⟨⟨fields, rfl⟩, hkd⟩ := keyGet_ok_obj hk
  subst hkd
  have hg : getScoreD (.obj fields) = n := by
    cases hl : pyLookup fields "score" with
    | none => simp [keyGetD, hl] at hn; simp [getScoreD, hl, numKey?] at hn ⊢; omega
    | some v => simp [keyGetD, hl] at hn; simp [getScoreD, hl, hn]
  exact ⟨hg.symm, ⟨_, hk, by rw [hg]; exact hn⟩⟩

theorem scoresDesc_getLast_min {bd : List Json} (h : ScoresDesc bd) {lst : Json}
    (hl : bd.getLast? = some lst) : ∀ e ∈ bd, getScoreD lst ≤ getScoreD e := by
  induction bd with
  | nil => simp at hl
  | cons b tl ih =>
    cases tl with
    | nil =>
      simp only [List.getLast?_singleton, Option.some.injEq] at hl
      subst hl
      intro e he
      simp only [List.mem_singleton] at he
      subst he
      exact le_refl _
    | cons t ts =>
      rw [List.getLast?_cons_cons] at hl
      rcases List.pairwise_cons.mp h with ⟨hb, htl⟩
      intro e he
      rcases List.mem_cons.mp he with rfl | he'
      · have hlm : lst ∈ t :: ts := List.mem_of_mem_getLast? hl
        exact hb lst hlm
      · exact ih htl hl e he'

theorem mem_takeWhile_of_sorted {bd : List Json} {score : Int} (h : ScoresDesc bd)
    {e : Json} (he : e ∈ bd) (hs : score ≤ getScoreD e) :
    e ∈ bd.takeWhile (fun x => decide (score ≤ getScoreD x)) := by
  induction bd with
  | nil => simp at he
  | cons b tl ih =>
    rcases List.pairwise_cons.mp h with ⟨hb, htl⟩
    rcases List.mem_cons.mp he with rfl | he'
    · simp [List.takeWhile_cons, hs]
    · have hsb : score ≤ getScoreD b := le_trans hs (hb e he')
      simp only [List.takeWhile_cons, decide_eq_true_eq, hsb, if_pos]
      exact List.mem_cons_of_mem b (ih htl he')

theorem load_ok_spec {fs : FileState} {bd : List Json}
    (h : load_leaderboard fs = .ok bd) :
    bd.length ≤ TOP_N ∧ ScoresDesc bd ∧
      (∀ e ∈ bd, ∃ fields, e = .obj fields) ∧
      (2 ≤ bd.length → ∀ e ∈ bd, GoodKey e) := by
  cases fs with
  | missing => cases h; simp [ScoresDesc, TOP_N]
  | unparsable => cases h; simp [ScoresDesc, TOP_N]
  | parsed j =>
    cases j with
    | arr xs =>
      simp only [load_leaderboard] at h
      cases hs : pySortedByScoreDesc keyGet xs with
      | error s => rw [hs] at h; simp [Except.map] at h
      | ok l =>
        rw [hs] at h
        simp only [Except.map, Except.ok.injEq] at h
        subst h
        simp only [pySortedByScoreDesc, Bind.bind] at hs
        cases hd : decorate keyGet xs with
        | error s => rw [hd] at hs; simp [Except.bind] at hs
        | ok dec =>
          rw [hd] at hs
          obtain ⟨hdec1, hdec2⟩ := decorate_ok_mem hd
          by_cases hlen : xs.length ≤ 1
          · simp only [Except.bind, hlen, if_pos, Except.ok.injEq] at hs
            subst hs
            have hobj : ∀ e ∈ xs, ∃ fields, e = .obj fields := by
              intro e he
              rw [← hdec1] at he
              obtain ⟨p, hp, rfl⟩ := List.mem_map.mp he
              exact (keyGet_ok_obj (hdec2 p hp)).1
            have hsorted : ScoresDesc xs := by
              cases hxs : xs with
              | nil => exact List.Pairwise.nil
              | cons a tl =>
                cases tl with
                | nil => simp [ScoresDesc]
                | cons b ts => rw [hxs] at hlen; simp at hlen
            refine ⟨?_, hsorted.sublist (List.take_sublist _ _), ?_, ?_⟩
            · rw [List.length_take]; exact min_le_left _ _
            · intro e he
              exact hobj e ((List.take_sublist _ _).mem he)
            · intro h2
              rw [List.length_take] at h2
              simp only [TOP_N] at h2
              omega
          · simp only [Except.bind, hlen, if_neg, ite_false] at hs
            cases hn : numKeys dec with
            | error s => rw [hn] at hs; simp at hs
            | ok keyed =>
              rw [hn] at hs
              simp only [Except.ok.injEq] at hs
              subst hs
              obtain ⟨hk1, hk2⟩ := numKeys_ok_mem hn
              have hkey : ∀ q ∈ keyed, q.2 = getScoreD q.1 ∧ GoodKey q.1 := by
                intro q hq
                obtain ⟨k, hkdec, hnk⟩ := hk2 q hq
                have := getScoreD_of_key (hdec2 _ hkdec) hnk
                exact ⟨this.1, this.2⟩
              have hkey' : ∀ q ∈ sortDesc keyed, q.2 = getScoreD q.1 ∧ GoodKey q.1 :=
                fun q hq => hkey q ((sortDesc_perm keyed).mem_iff.mp hq)
              have hsorted : ScoresDesc ((sortDesc keyed).map Prod.fst) := by
                rw [ScoresDesc, List.pairwise_map]
                refine List.Pairwise.imp_of_mem ?_ (sortDesc_sorted keyed)
                intro a b ha hb hab
                rw [← (hkey' a ha).1, ← (hkey' b hb).1]
                exact hab
              refine ⟨?_, hsorted.sublist (List.take_sublist _ _), ?_, ?_⟩
              · rw [List.length_take]; exact min_le_left _ _
              · intro e he
                have := (List.take_sublist _ _).mem he
                obtain ⟨q, hq, rfl⟩ := List.mem_map.mp this
                obtain ⟨k, hkdec, _⟩ := hk2 q ((sortDesc_perm keyed).mem_iff.mp hq)
                exact (keyGet_ok_obj (hdec2 _ hkdec)).1
              · intro _ e he
                have := (List.take_sublist _ _).mem he
                obtain ⟨q, hq, rfl⟩ := List.mem_map.mp this
                exact (hkey' q hq).2
    | null => cases h; simp [ScoresDesc, TOP_N]
    | bool b => cases h; simp [ScoresDesc, TOP_N]
    | num n => cases h; simp [ScoresDesc, TOP_N]
    | str s => cases h; simp [ScoresDesc, TOP_N]
    | obj fields => cases h; simp [ScoresDesc, TOP_N]

theorem goodElem_key {e : Json} (h : GoodElem e) :
    keyGet e = .ok (keyGetD e) ∧ numKey? (keyGetD e) = some (getScoreD e) := by
  obtain ⟨fields, rfl, hsc⟩ := h
  rcases hsc with hnone | ⟨n, hsome⟩
  · simp [keyGet, keyGetD, getScoreD, hnone, numKey?]
  · simp [keyGet, keyGetD, getScoreD, hsome, numKey?]

theorem wfEntry_key {e : Json} (h : WFEntry e) :
    keyIndex e = .ok (.num (getScoreD e)) := by
  obtain ⟨fields, n, rfl, hsc⟩ := h
  simp [keyIndex, getScoreD, hsc, numKey?]

theorem load_good_ok {fs : FileState} (h : GoodFile fs) :
    ∃ bd, load_leaderboard fs = .ok bd := by
  cases fs with
  | missing => exact ⟨[], rfl⟩
  | unparsable => exact ⟨[], rfl⟩
  | parsed j =>
    cases j with
    | arr xs =>
      have hkeys : ∀ e ∈ xs, keyGet e = .ok (keyGetD e) :=
        fun e he => (goodElem_key (h e he)).1
      have hdec := decorate_eq_map hkeys
      by_cases hlen : xs.length ≤ 1
      · exact ⟨xs.take TOP_N, by
          simp [load_leaderboard, pySortedByScoreDesc, hdec, hlen,
            Bind.bind, Except.bind, Except.map]⟩
      · have hnum : ∀ p ∈ (xs.map fun e => (e, keyGetD e)),
            numKey? p.2 = some (getScoreD p.1) := by
          intro p hp
          obtain ⟨e, he, rfl⟩ := List.mem_map.mp hp
          exact (goodElem_key (h e he)).2
        have hnk : numKeys (xs.map fun e => (e, keyGetD e)) =
            .ok ((xs.map fun e => (e, keyGetD e)).map fun p => (p.1, getScoreD p.1)) :=
          numKeys_eq_map (fun p => getScoreD p.1) hnum
        refine ⟨((sortDesc ((xs.map fun e => (e, keyGetD e)).map
            fun p => (p.1, getScoreD p.1))).map Prod.fst).take TOP_N, ?_⟩
        simp [load_leaderboard, pySortedByScoreDesc, hdec, hlen,
          hnk, Bind.bind, Except.bind, Except.map]
    | null => exact ⟨[], rfl⟩
    | bool b => exact ⟨[], rfl⟩
    | num n => exact ⟨[], rfl⟩
    | str s => exact ⟨[], rfl⟩
    | obj fields => exact ⟨[], rfl⟩

/-- C3: the persisted-file tolerance of `load_leaderboard` as claimed
for **every** file state is refuted by a file holding the valid JSON
list `[1, 2, 3]`: its elements are not objects, `e.get("score", 0)`
raises `AttributeError`, and nothing catches it. -/
theorem claim_C3_counterexample : ¬ LoadNeverRaises := by
  intro h
  obtain ⟨bd, hbd, -⟩ := h (.parsed (.arr [.num 1, .num 2, .num 3]))
  have : load_leaderboard (.parsed (.arr [.num 1, .num 2, .num 3])) =
      .error "AttributeError" := rfl
  rw [this] at hbd
  exact Except.noConfusion hbd

/-- C3 (amended): for every persisted file state that is missing,
empty, corrupt, a non-list value, or a list of objects whose scores
are integers or absent, `load()` returns at most 5 entries sorted
descending by score without raising; a parsed list containing any
other element raises an uncaught exception (see the counterexample). -/
theorem claim_C3 (fs : FileState) (h : GoodFile fs) :
    ∃ bd, load_leaderboard fs = .ok bd ∧ bd.length ≤ TOP_N ∧ ScoresDesc bd := by
  obtain ⟨bd, hbd⟩ := load_good_ok h
  obtain ⟨hlen, hsort, -, -⟩ := load_ok_spec hbd
  exact ⟨bd, hbd, hlen, hsort⟩

/-- Witness for C3 at the Scenario B board file. -/
theorem claim_C3_witness :
    GoodFile scenarioBFile ∧
      ∃ bd, load_leaderboard scenarioBFile = .ok bd ∧
        bd.length ≤ TOP_N ∧ ScoresDesc bd := by
  have hgood : GoodFile scenarioBFile := by
    intro e he
    simp only [scenarioB, List.mem_cons, List.not_mem_nil, or_false] at he
    rcases he with rfl | rfl | rfl | rfl | rfl <;>
      exact ⟨_, rfl, Or.inr ⟨_, rfl⟩⟩
  exact ⟨hgood, claim_C3 scenarioBFile hgood⟩

/-- C1: Scenario B is refuted by the code: on the full board
`[10, 8, 6, 4, 2]` the current minimum is 2, not 4, so a submission of
score 3 with the non-empty name `"F"` is **not** rejected — the
persisted board changes, dropping the entry with score 2. -/
theorem claim_C1_counterexample :
    submit_name scenarioBFile "F" 3 = some (.ok scenarioBAfter) ∧
      scenarioBAfter ≠ scenarioB := by
  refine ⟨rfl, ?_⟩
  simp [scenarioBAfter, scenarioB, newEntry]

/-- C1 (amended): on the full Scenario B board `[10, 8, 6, 4, 2]`, a
submission of score 3 with a non-empty name is accepted:
`is_top_score 3` is true (3 exceeds 2, the actual current minimum),
and the persisted board becomes `[10, 8, 6, 4, 3]` — the new entry is
kept and the lowest entry (score 2) is dropped. -/
theorem claim_C1 :
    is_top_score scenarioBFile 3 = .ok true ∧
      submit_name scenarioBFile "F" 3 = some (.ok scenarioBAfter) ∧
      newEntry "F" 3 ∈ scenarioBAfter ∧
      newEntry "E" 2 ∉ scenarioBAfter := by
  refine ⟨rfl, rfl, ?_, ?_⟩
  · simp [scenarioBAfter]
  · simp [scenarioBAfter, newEntry]

/-- C6: `is_top_score` returns true exactly when the loaded board has
fewer than `TOP_N` entries and the score is positive, or the board is
full and the score strictly exceeds the last (and, the board being
sorted descending, lowest) entry's score. -/
theorem claim_C6 (fs : FileState) (score : Int) (bd : List Json)
    (hload : load_leaderboard fs = .ok bd) :
    ∃ b, is_top_score fs score = .ok b ∧
      (b = true ↔ ((bd.length < TOP_N ∧ 0 < score) ∨
        (bd.length = TOP_N ∧
          ∃ lst, bd.getLast? = some lst ∧ getScoreD lst < score))) ∧
      (∀ lst, bd.getLast? = some lst → ∀ e ∈ bd, getScoreD lst ≤ getScoreD e) := by
  obtain ⟨hlen, hsort, hobj, hgood⟩ := load_ok_spec hload
  by_cases hl : bd.length < TOP_N
  · refine ⟨decide (score > 0), ?_, ?_, ?_⟩
    · simp [is_top_score, hload, Bind.bind, Except.bind, hl]
    · simp only [decide_eq_true_eq]
      constructor
      · intro hpos; exact Or.inl ⟨hl, hpos⟩
      · rintro (⟨-, hpos⟩ | ⟨hfull, -⟩)
        · exact hpos
        · omega
    · intro lst hlst e he
      exact scoresDesc_getLast_min hsort hlst e he
  · have hfull : bd.length = TOP_N := le_antisymm hlen (not_lt.mp hl)
    have hne : bd ≠ [] := by
      intro hnil
      rw [hnil] at hfull
      simp [TOP_N] at hfull
    obtain ⟨lst, hlst⟩ := Option.ne_none_iff_exists'.mp
      (mt List.getLast?_eq_none_iff.mp hne)
    have hmem : lst ∈ bd := List.mem_of_mem_getLast? hlst
    obtain ⟨k, hk, hnk⟩ := hgood (by rw [hfull]; decide) lst hmem
    refine ⟨decide (score > getScoreD lst), ?_, ?_, ?_⟩
    · simp [is_top_score, hload, Bind.bind, Except.bind, hl, hlst, hk, hnk]
    · simp only [decide_eq_true_eq]
      constructor
      · intro hgt; exact Or.inr ⟨hfull, lst, hlst, hgt⟩
      · rintro (⟨hlt, -⟩ | ⟨-, lst', hlst', hgt⟩)
        · omega
        · rw [hlst] at hlst'
          cases hlst'
          exact hgt
    · intro lst' hlst' e he
      exact scoresDesc_getLast_min hsort hlst' e he

/-- Witness for C6 at the Scenario B board with score 3. -/
theorem claim_C6_witness :
    load_leaderboard scenarioBFile = .ok scenarioB ∧
      ∃ b, is_top_score scenarioBFile 3 = .ok b ∧
        (b = true ↔ ((scenarioB.length < TOP_N ∧ (0 : Int) < 3) ∨
          (scenarioB.length = TOP_N ∧
            ∃ lst, scenarioB.getLast? = some lst ∧ getScoreD lst < 3))) ∧
      (∀ lst, scenarioB.getLast? = some lst →
        ∀ e ∈ scenarioB, getScoreD lst ≤ getScoreD e) :=
  ⟨rfl, claim_C6 scenarioBFile 3 scenarioB rfl⟩

/-- The C7 insertion point: existing entries with score ≥ the new
score form the prefix the new entry is placed after. -/
theorem claim_C7_core (bd : List Json) (name : String) (score : Int)
    (hwf : ∀ e ∈ bd, WFEntry e) (hsort : ScoresDesc bd) (hne : bd ≠ []) :
    pySortedByScoreDesc keyIndex (bd ++ [newEntry name score]) =
      .ok (bd.takeWhile (fun e => decide (score ≤ getScoreD e)) ++
        newEntry name score :: bd.dropWhile (fun e => decide (score ≤ getScoreD e))) := by
  have hkeys : ∀ e ∈ bd ++ [newEntry name score],
      keyIndex e = .ok (.num (getScoreD e)) := by
    intro e he
    rcases List.mem_append.mp he with hbd | hnew
    · exact wfEntry_key (hwf e hbd)
    · rw [List.mem_singleton.mp hnew]; rfl
  have hdec := decorate_eq_map hkeys
  have hlen : ¬ (bd ++ [newEntry name score]).length ≤ 1 := by
    have : 1 ≤ bd.length := List.length_pos.mpr hne
    simp only [List.length_append, List.length_singleton]
    omega
  have hnum : ∀ p ∈ ((bd ++ [newEntry name score]).map fun e => (e, Json.num (getScoreD e))),
      numKey? p.2 = some (getScoreD p.1) := by
    intro p hp
    obtain ⟨e, -, rfl⟩ := List.mem_map.mp hp
    rfl
  have hnk : numKeys ((bd ++ [newEntry name score]).map fun e => (e, Json.num (getScoreD e))) =
      .ok (((bd ++ [newEntry name score]).map fun e => (e, Json.num (getScoreD e))).map
        fun p => (p.1, getScoreD p.1)) :=
    numKeys_eq_map (fun p => getScoreD p.1) hnum
  have hmapped : ((bd ++ [newEntry name score]).map fun e => (e, Json.num (getScoreD e))).map
      (fun p => (p.1, getScoreD p.1)) =
      bd.map (fun e => (e, getScoreD e)) ++ [(newEntry name score, score)] := by
    rw [List.map_map, List.map_append]
    rfl
  have hsorted : SortedDesc (bd.map fun e => (e, getScoreD e)) := by
    rw [SortedDesc, List.pairwise_map]
    exact hsort
  have hsdid : sortDesc (bd.map fun e => (e, getScoreD e)) =
      bd.map fun e => (e, getScoreD e) := sortDesc_of_sorted hsorted
  have hins : sortDesc (bd.map (fun e => (e, getScoreD e)) ++ [(newEntry name score, score)]) =
      insertDesc (newEntry name score, score) (bd.map fun e => (e, getScoreD e)) := by
    rw [sortDesc_append_singleton, hsdid]
  have hinsw := insertDesc_eq_takeWhile (newEntry name score, score)
    (bd.map fun e => (e, getScoreD e))
  have hid : (Prod.fst ∘ fun e : Json => (e, getScoreD e)) = fun e : Json => e := rfl
  have hpred : ((fun y : Json × Int => decide (score ≤ y.2)) ∘
      fun e : Json => (e, getScoreD e)) = fun e : Json => decide (score ≤ getScoreD e) := rfl
  have hmapfst : (insertDesc (newEntry name score, score)
        (bd.map fun e => (e, getScoreD e))).map Prod.fst =
      bd.takeWhile (fun e => decide (score ≤ getScoreD e)) ++
        newEntry name score :: bd.dropWhile (fun e => decide (score ≤ getScoreD e)) := by
    rw [hinsw]
    simp only [List.map_append, List.map_cons, List.takeWhile_map,
      List.dropWhile_map, List.map_map, hid, hpred, List.map_id']
  simp only [pySortedByScoreDesc, hdec, Bind.bind, Except.bind, hlen, ite_false]
  rw [hnk, hmapped]
  exact congrArg Except.ok (by rw [hins]; exact hmapfst)

/-- C7: insertion of an entry whose score ties an existing entry is
stable: `add_score` places the new entry exactly after the block of
existing entries with score ≥ it (so all equal-score entries keep
their positions ahead of it), and every existing equal-score entry is
still in the truncated top-5 result. -/
theorem claim_C7 (fs : FileState) (bd : List Json) (name : String) (score : Int)
    (hload : load_leaderboard fs = .ok bd)
    (hwf : ∀ e ∈ bd, WFEntry e)
    (htie : ∃ e ∈ bd, getScoreD e = score) :
    add_score name score fs =
      .ok ((bd.takeWhile (fun e => decide (score ≤ getScoreD e)) ++
        newEntry name score :: bd.dropWhile (fun e => decide (score ≤ getScoreD e))).take TOP_N) ∧
    (∀ e ∈ bd, getScoreD e = score →
      e ∈ bd.takeWhile (fun e => decide (score ≤ getScoreD e))) ∧
    (∀ e ∈ bd, getScoreD e = score →
      e ∈ (bd.takeWhile (fun e => decide (score ≤ getScoreD e)) ++
        newEntry name score :: bd.dropWhile (fun e => decide (score ≤ getScoreD e))).take TOP_N) := by
  obtain ⟨hlen, hsort, -, -⟩ := load_ok_spec hload
  have hne : bd ≠ [] := by
    obtain ⟨e, he, -⟩ := htie
    exact List.ne_nil_of_mem he
  have hcore := claim_C7_core bd name score hwf hsort hne
  have hmemtw : ∀ e ∈ bd, getScoreD e = score →
      e ∈ bd.takeWhile (fun e => decide (score ≤ getScoreD e)) := by
    intro e he heq
    exact mem_takeWhile_of_sorted hsort he (le_of_eq heq.symm)
  refine ⟨?_, hmemtw, ?_⟩
  · simp only [add_score, hload, Bind.bind, Except.bind, hcore]
  · intro e he heq
    have hin := hmemtw e he heq
    have hlentw : (bd.takeWhile (fun e => decide (score ≤ getScoreD e))).length ≤ TOP_N :=
      le_trans (List.takeWhile_sublist _).length_le hlen
    rw [List.take_append_eq_append_take,
      List.take_of_length_le hlentw]
    exact List.mem_append_left _ hin

/-- Witness for C7: inserting score 4 (tying entry `D`) into the
Scenario B board. -/
theorem claim_C7_witness :
    add_score "Z" 4 scenarioBFile =
      .ok ((scenarioB.takeWhile (fun e => decide ((4 : Int) ≤ getScoreD e)) ++
        newEntry "Z" 4 :: scenarioB.dropWhile (fun e => decide ((4 : Int) ≤ getScoreD e))).take TOP_N) ∧
    (∀ e ∈ scenarioB, getScoreD e = 4 →
      e ∈ scenarioB.takeWhile (fun e => decide ((4 : Int) ≤ getScoreD e))) ∧
    (∀ e ∈ scenarioB, getScoreD e = 4 →
      e ∈ (scenarioB.takeWhile (fun e => decide ((4 : Int) ≤ getScoreD e)) ++
        newEntry "Z" 4 :: scenarioB.dropWhile (fun e => decide ((4 : Int) ≤ getScoreD e))).take TOP_N) := by
  refine claim_C7 scenarioBFile scenarioB "Z" 4 rfl ?_ ?_
  · intro e he
    simp only [scenarioB, List.mem_cons, List.not_mem_nil, or_false] at he
    rcases he with rfl | rfl | rfl | rfl | rfl <;> exact ⟨_, _, rfl, rfl⟩
  · exact ⟨newEntry "D" 4, by simp [scenarioB], rfl⟩

/-! ## Per-step properties of the engine -/

/-- C9: at the checkpoint before any playback step, a drained `stop`
command aborts playback — the engine transitions directly to idle with
a cleared sequence, returns to the main loop, and lights no further
pad in that step. -/
theorem claim_C9 (c : Config) (now : Int) (evs : List Ev) (c' : Config) (k : Nat)
    (hstep : Step c (.eng now evs) c')
    (hpc : c.pc = .playStep k)
    (hcmd : lastCmd c.cmdQ = some .stop) :
    c'.phase = .idle ∧ c'.sequence = [] ∧ c'.pc = .main ∧ ∀ i, Ev.light i ∉ evs := by
  cases hstep <;>
    simp_all [goIdle, goIdleEvs, roundStart, roundStartEvs, lightEvs,
      StopCase, StartCase]

/-- C10: no engine transition resets the debounce pair: every step
either preserves `(lastNote, lastNoteTime)` exactly, or is the
processing of a valid press during `input`, which sets the pair to
that press (in particular round starts, stop, game over, and session
restarts never clear it). -/
theorem claim_C10 (c : Config) (l : Lab) (c' : Config) (hstep : Step c l c') :
    (c'.lastNote = c.lastNote ∧ c'.lastNoteTime = c.lastNoteTime) ∨
    (∃ now evs m rest, l = .eng now evs ∧ c.pc = .msgs ∧ c.phase = .input ∧
      c.midiQ = m :: rest ∧ c'.lastNote = some m.note ∧ c'.lastNoteTime = now) := by
  cases hstep <;> try exact Or.inl ⟨rfl, rfl⟩
  case msgsWrong now m rest idx exp isTop hpc hnow hq hon hv hidx hph hdeb hexp hne htop =>
    exact Or.inr ⟨now, _, m, rest, rfl, hpc, hph, hq, rfl, rfl⟩
  case msgsCorrectMid now m rest idx hpc hnow hq hon hv hidx hph hdeb hexp hmore =>
    exact Or.inr ⟨now, _, m, rest, rfl, hpc, hph, hq, rfl, rfl⟩
  case msgsCorrectDone now m rest idx n hpc hnow hq hon hv hidx hph hdeb hexp hdone hn =>
    exact Or.inr ⟨now, _, m, rest, rfl, hpc, hph, hq, rfl, rfl⟩

/-- C5: during `input`, a press repeating the last recorded note
within 350 ms is dropped entirely — no event, no state change beyond
consuming the message — while a press of a different pad than the last
recorded one is always evaluated (it yields a `correct` or `wrong`
event and is recorded as the new debounce reference), regardless of
elapsed time. -/
theorem claim_C5 (c : Config) (now : Int) (evs : List Ev) (c' : Config)
    (m : MidiMsg) (rest : List MidiMsg) (idx : Nat)
    (hstep : Step c (.eng now evs) c')
    (hpc : c.pc = .msgs) (hph : c.phase = .input)
    (hq : c.midiQ = m :: rest)
    (hon : m.noteOn = true) (hv : m.velocity ≠ 0)
    (hidx : note_to_pad_index m.note = some idx) :
    ((c.lastNote = some m.note ∧ now - c.lastNoteTime < DEBOUNCE_MS) →
      evs = [] ∧ c' = { c with midiQ := rest, clock := now }) ∧
    (c.lastNote ≠ some m.note →
      ((∃ i, Ev.correct i ∈ evs ∨ Ev.wrong i ∈ evs) ∧
        c'.lastNote = some m.note ∧ c'.lastNoteTime = now)) := by
  cases hstep <;> simp_all [StopCase, StartCase, roundStart, roundStartEvs]

/-- C8: Scenario D — in `input` with sequence `[pad3, pad7]` (notes
34, 38), cursor 0 and frozen-score-to-be 1, an accepted, non-debounced
press of pad 7 yields a `wrong` (press-rejected) event for pad 7, a
transition to `gameover`, and a round-over event reporting the frozen
final score 1. -/
theorem claim_C8 (c : Config) (now : Int) (evs : List Ev) (c' : Config)
    (v : Nat) (rest : List MidiMsg)
    (hstep : Step c (.eng now evs) c')
    (hpc : c.pc = .msgs) (hph : c.phase = .input)
    (hseq : c.sequence = [34, 38]) (hexp : c.expectedIndex = 0)
    (hscore : c.score = 1)
    (hq : c.midiQ = MidiMsg.mk true 38 v :: rest)
    (hv : v ≠ 0)
    (hlast : c.lastNote ≠ some 38) :
    Ev.wrong 7 ∈ evs ∧ c'.phase = .gameover ∧ ∃ t, Ev.gameover 1 t ∈ evs := by
  cases hstep <;>
    simp_all [note_to_pad_index, NOTE_MIN, NOTE_MAX, goIdle, goIdleEvs,
      roundStart, roundStartEvs, StopCase, StartCase]

/-- C2 (amended, provable half): a press event is ignored at the
moment the engine dequeues it while the phase is not `input` — that
step emits nothing and only consumes the message. -/
theorem claim_C2 (c : Config) (now : Int) (evs : List Ev) (c' : Config)
    (m : MidiMsg) (rest : List MidiMsg)
    (hstep : Step c (.eng now evs) c')
    (hpc : c.pc = .msgs) (hq : c.midiQ = m :: rest)
    (hph : c.phase ≠ .input) :
    evs = [] ∧ c' = { c with midiQ := rest, clock := now } := by
  cases hstep <;> simp_all [StopCase, StartCase]

/-- The engine invariant behind C4: inside the playback loop the phase
is `playing`, and in phases `playing`/`input` the score is exactly one
less than the sequence length. -/
theorem reach_inv {c : Config} (h : Reach c) :
    ((∃ k, c.pc = .playStep k) ∨ c.pc = .playDone → c.phase = .playing) ∧
    ((c.phase = .playing ∨ c.phase = .input) → c.score + 1 = c.sequence.length) := by
  induction h with
  | init file midiOk0 board hload => simp [initConfig]
  | @step c l c' hr hs ih =>
    cases hs with
    | recvCmd cmd => exact ih
    | recvMsg m => exact ih
    | mainStop now board hpc hnow hcmd hph hload =>
      exact ⟨by rintro (⟨k, hk⟩ | hk) <;> exact PC.noConfusion hk,
        by rintro (hp | hp) <;> exact Phase.noConfusion hp⟩
    | mainStartNoMidi now board hpc hnow hno hcmd hmidi hload =>
      exact ⟨by rintro (⟨k, hk⟩ | hk) <;> exact PC.noConfusion hk,
        by rintro (hp | hp) <;> exact Phase.noConfusion hp⟩
    | mainStart now n hpc hnow hno hcmd hn =>
      refine ⟨fun _ => rfl, fun _ => ?_⟩
      simp [roundStart]
    | mainSleep now hpc hnow hno hns hph =>
      refine ⟨by rintro (⟨k, hk⟩ | hk) <;> exact PC.noConfusion hk, ?_⟩
      intro hp
      rcases hph with h | h <;> rw [h] at hp <;>
        rcases hp with hp | hp <;> exact Phase.noConfusion hp
    | mainNoInport now hpc hnow hno hns hph hmidi =>
      exact ⟨by rintro (⟨k, hk⟩ | hk) <;> exact PC.noConfusion hk, ih.2⟩
    | mainToMsgs now hpc hnow hno hns hph hmidi =>
      exact ⟨by rintro (⟨k, hk⟩ | hk) <;> exact PC.noConfusion hk, ih.2⟩
    | playStop now k board hpc hnow hcmd hload =>
      exact ⟨by rintro (⟨k', hk⟩ | hk) <;> exact PC.noConfusion hk,
        by rintro (hp | hp) <;> exact Phase.noConfusion hp⟩
    | playLight now k note hpc hnow hcmd hnote =>
      exact ⟨fun _ => ih.1 (Or.inl ⟨k, hpc⟩), ih.2⟩
    | playDoneStop now board hpc hnow hcmd hload =>
      exact ⟨by rintro (⟨k, hk⟩ | hk) <;> exact PC.noConfusion hk,
        by rintro (hp | hp) <;> exact Phase.noConfusion hp⟩
    | playDoneInput now hpc hnow hcmd =>
      exact ⟨by rintro (⟨k, hk⟩ | hk) <;> exact PC.noConfusion hk,
        fun _ => ih.2 (Or.inl (ih.1 (Or.inr hpc)))⟩
    | msgsEmpty now hpc hnow hq =>
      exact ⟨by rintro (⟨k, hk⟩ | hk) <;> exact PC.noConfusion hk, ih.2⟩
    | msgsFilter now m rest hpc hnow hq hf => exact ih
    | msgsNotInput now m rest idx hpc hnow hq hon hv hidx hph => exact ih
    | msgsDebounce now m rest idx hpc hnow hq hon hv hidx hph hlast hwin => exact ih
    | msgsWrong now m rest idx exp isTop hpc hnow hq hon hv hidx hph hdeb hexp hne htop =>
      refine ⟨?_, by rintro (hp | hp) <;> exact Phase.noConfusion hp⟩
      rintro (⟨k, hk⟩ | hk) <;> rw [hpc] at hk <;> exact PC.noConfusion hk
    | msgsCorrectMid now m rest idx hpc hnow hq hon hv hidx hph hdeb hexp hmore => exact ih
    | msgsCorrectDone now m rest idx n hpc hnow hq hon hv hidx hph hdeb hexp hdone hn =>
      refine ⟨fun _ => rfl, fun _ => ?_⟩
      simp only [roundStart, List.length_append, List.length_singleton]
      omega

/-- C4: at every reachable configuration whose phase is `playing` or
`input`, the score equals the sequence length minus one. -/
theorem claim_C4 (c : Config) (h : Reach c)
    (hph : c.phase = .playing ∨ c.phase = .input) :
    c.score = c.sequence.length - 1 := by
  have := (reach_inv h).2 hph
  omega

/-! ## A concrete execution: a press generated during playback is
accepted once the phase flips to `input` -/

theorem stepA1 : Step cA0 (.recvCmd .start) cA1 :=
  Step.recvCmd cA0 .start

theorem stepA2 : Step cA1 (.eng 0 [.score 0, .phase .playing]) cA2 :=
  Step.mainStart cA1 0 31 rfl (by decide) (by decide) (by decide) (by decide)

theorem stepA3 : Step cA2 (.recvMsg mA .playing) cA3 :=
  Step.recvMsg cA2 mA

theorem stepA4 : Step cA3 (.eng 0 [.light 0, .unlight 0]) cA4 :=
  Step.playLight cA3 0 0 31 rfl (by decide) (by decide) (by decide)

theorem stepA5 : Step cA4 (.eng 0 [.phase .input]) cA5 :=
  Step.playDoneInput cA4 0 rfl (by decide) (by decide)

theorem stepA6 : Step cA5 (.eng 0 [.correct 0, .score 1, .phase .playing]) cA6 :=
  Step.msgsCorrectDone cA5 0 mA [] 0 31 rfl (by decide) rfl rfl (by decide)
    (by decide) rfl (by decide) (by decide) (by decide) (by decide)

theorem execA : Exec cA0 labsA cA6 :=
  Exec.step stepA1 (Exec.step stepA2 (Exec.step stepA3 (Exec.step stepA4
    (Exec.step stepA5 (Exec.step stepA6 (Exec.refl cA6))))))

/-- C2: the claim that a press arriving during `playing` is never
accepted is refuted: the engine never drains the MIDI buffer during
playback, so in the trace `execA` the press delivered mid-playback is
still buffered when the phase flips to `input` and is then evaluated,
emitting a `correct` event — even though every press in the trace
arrived while the phase was `playing`. -/
theorem claim_C2_counterexample : ¬ NoStalePressAcceptance := by
  intro h
  have h2 := h .missing true labsA cA6 execA ?_
  · have h3 := h2 0 [.correct 0, .score 1, .phase .playing] (by simp [labsA]) 0
    exact h3.1 (List.mem_cons_self _ _)
  · intro m ph hm
    simp only [labsA, List.mem_cons, List.not_mem_nil, or_false] at hm
    simp only [reduceCtorEq, Lab.recvMsg.injEq, false_or, or_false] at hm
    exact hm.2

theorem reachA2 : Reach cA2 :=
  Reach.step (Reach.step (Reach.init .missing true [] rfl) stepA1) stepA2

/-- Witness for C4: the reachable configuration `cA2` (mid-playback of
the first round) has score 0 and sequence length 1. -/
theorem claim_C4_witness :
    (cA2.phase = .playing ∨ cA2.phase = .input) ∧
      cA2.score = cA2.sequence.length - 1 :=
  ⟨Or.inl rfl, claim_C4 cA2 reachA2 (Or.inl rfl)⟩

/-! ## Witness steps for the per-step theorems -/

/-- The configuration after the debounce-drop step from `cD`. -/
def cD' : Config := { cD with midiQ := [], clock := 100 }

theorem stepD : Step cD (.eng 100 []) cD' :=
  Step.msgsDebounce cD 100 ⟨true, 31, 100⟩ [] 0 rfl (by decide) rfl rfl
    (by decide) (by decide) rfl rfl (by decide)

/-- Witness for C5: a same-pad press 100 ms after the last recorded
one is dropped. -/
theorem claim_C5_witness :
    ((cD.lastNote = some 31 ∧ 100 - cD.lastNoteTime < DEBOUNCE_MS) →
      ([] : List Ev) = [] ∧ cD' = { cD with midiQ := [], clock := 100 }) ∧
    (cD.lastNote ≠ some 31 →
      ((∃ i, Ev.correct i ∈ ([] : List Ev) ∨ Ev.wrong i ∈ ([] : List Ev)) ∧
        cD'.lastNote = some 31 ∧ cD'.lastNoteTime = 100)) :=
  claim_C5 cD 100 [] cD' ⟨true, 31, 100⟩ [] 0 stepD rfl rfl rfl rfl
    (by decide) (by decide)

/-- The configuration after the Scenario D mismatch step from `cW`. -/
def cW' : Config :=
  { cW with
    midiQ := []
    clock := 50
    lastNote := some 38
    lastNoteTime := 50
    phase := .gameover }

theorem stepW : Step cW (.eng 50 [.wrong 7, .phase .gameover, .gameover 1 true]) cW' :=
  Step.msgsWrong cW 50 ⟨true, 38, 100⟩ [] 7 34 true rfl (by decide) rfl rfl
    (by decide) (by decide) rfl (by decide) rfl (by decide) rfl

/-- Witness for C8 at the Scenario D configuration `cW`. -/
theorem claim_C8_witness :
    Ev.wrong 7 ∈ [Ev.wrong 7, Ev.phase .gameover, Ev.gameover 1 true] ∧
      cW'.phase = .gameover ∧
      ∃ t, Ev.gameover 1 t ∈ [Ev.wrong 7, Ev.phase .gameover, Ev.gameover 1 true] :=
  claim_C8 cW 50 _ cW' 100 [] stepW rfl rfl rfl rfl rfl rfl (by decide) (by decide)

/-- The configuration after the mid-playback stop-abort step from `cS`. -/
def cS' : Config := { goIdle cS with cmdQ := [], clock := 0, pc := .main }

theorem stepS : Step cS (.eng 0 [.phase .idle, .score 0, .leaderboard []]) cS' :=
  Step.playStop cS 0 1 [] rfl (by decide) (by decide) rfl

/-- Witness for C9 at the Scenario E configuration `cS` (stop pending
with 1 of 3 pads lit). -/
theorem claim_C9_witness :
    cS'.phase = .idle ∧ cS'.sequence = [] ∧ cS'.pc = .main ∧
      ∀ i, Ev.light i ∉ [Ev.phase .idle, Ev.score 0, Ev.leaderboard []] :=
  claim_C9 cS 0 _ cS' 1 stepS rfl (by decide)

/-- Witness for C10 at the stop-abort step: the debounce pair survives
the reset to idle. -/
theorem claim_C10_witness :
    (cS'.lastNote = cS.lastNote ∧ cS'.lastNoteTime = cS.lastNoteTime) ∨
    (∃ now evs m rest,
      Lab.eng 0 [Ev.phase .idle, Ev.score 0, Ev.leaderboard []] = Lab.eng now evs ∧
      cS.pc = .msgs ∧ cS.phase = .input ∧ cS.midiQ = m :: rest ∧
      cS'.lastNote = some m.note ∧ cS'.lastNoteTime = now) :=
  claim_C10 cS _ cS' stepS

/-- The configuration after `cN` drops a press dequeued during
`playing`. -/
def cN' : Config := { cN with midiQ := [], clock := 0 }

theorem stepN : Step cN (.eng 0 []) cN' :=
  Step.msgsNotInput cN 0 ⟨true, 31, 100⟩ [] 0 rfl (by decide) rfl rfl
    (by decide) (by decide) (by decide)

/-- Witness for the amended C2: a press dequeued while the phase is
`playing` is dropped without any event or other state change. -/
theorem claim_C2_witness :
    ([] : List Ev) = [] ∧ cN' = { cN with midiQ := [], clock := 0 } :=
  claim_C2 cN 0 [] cN' ⟨true, 31, 100⟩ [] stepN rfl rfl (by decide)

end StarryPad
